import Mathlib

/-!
# Verification of the JBD BLE BMS protocol driver (`battery_switch.py`)

Shallow embedding of the protocol core of `src/battery_switch.py`:
frame assembly from notification chunks, checksum computation, command
encoding, telemetry and cell-voltage decoding, and the switch-control
byte computation.  Bytes are modelled as `Nat` (Python `bytes` elements),
Python `int` arithmetic as `Int` where sign or overflow checks matter,
float division by 100/10 as exact rational division, and raising Python
exceptions as `Except PyErr`.
-/

/-- Python exceptions that the embedded code can raise. -/
inductive PyErr where
  | indexError
  | valueError
  | overflowError
  | timeoutError
  deriving DecidableEq, Repr

deriving instance DecidableEq for Except

/-- Python slice `l[a:b]` for `0 ≤ a ≤ b` (clamps at the end of the list). -/
def pySlice (l : List Nat) (a b : Nat) : List Nat :=
  (l.drop a).take (b - a)

/-- Python `int.from_bytes(l, 'big')` (unsigned). -/
def fromBytesBE (l : List Nat) : Nat :=
  l.foldl (fun acc x => acc * 256 + x) 0

/-- Python `int.from_bytes(l, 'big', signed=True)`:
two's-complement reading of a big-endian byte string. -/
def fromBytesBESigned (l : List Nat) : Int :=
  let u := fromBytesBE l
  if 2 * u ≥ 256 ^ l.length then (u : Int) - (256 ^ l.length : Nat) else (u : Int)

/-- Python `crc.to_bytes(2, byteorder='big')`: raises `OverflowError` unless
`0 ≤ crc < 0x10000`; returns the (high, low) byte pair. -/
def toBytes2BE (crc : Int) : Except PyErr (Nat × Nat) :=
  if 0 ≤ crc ∧ crc < 65536 then .ok (crc.toNat / 256, crc.toNat % 256)
  else .error .overflowError

/-- Function `_jbd_command(command)` from `battery_switch.py`:
`bytes([0xDD, 0xA5, command, 0x00, 0xFF, 0xFF - (command - 1), 0x77])`.
Python `bytes(...)` raises `ValueError` when an element is outside `[0, 255]`. -/
def _jbd_command (command : Int) : Except PyErr (List Nat) :=
  let bs : List Int := [0xDD, 0xA5, command, 0x00, 0xFF, 0xFF - (command - 1), 0x77]
  if bs.all (fun b => 0 ≤ b && b < 256) then .ok (bs.map Int.toNat)
  else .error .valueError

/-- Function `jbd_checksum(cmd, data)` (local inside `set_switch`):
`crc = 0x10000` then `crc -= i` for each `i` in `data + bytes([len(data), cmd])`,
finally `crc.to_bytes(2, 'big')`.  Building `bytes([len(data), cmd])` raises
`ValueError` when `len(data)` or `cmd` exceeds 255. -/
def jbd_checksum (cmd : Nat) (data : List Nat) : Except PyErr (Nat × Nat) :=
  if data.length ≤ 255 ∧ cmd ≤ 255 then
    toBytes2BE (List.foldl (fun acc x => acc - x) (65536 : Int)
      (data.map (fun x : Nat => (x : Int)) ++ [(data.length : Int), (cmd : Int)]))
  else .error .valueError

/-- Function `jbd_message(status_bit, cmd, data)` (local inside `set_switch`):
`bytes([0xDD, status_bit, cmd, len(data)]) + data + jbd_checksum(cmd, data) + bytes([0x77])`. -/
def jbd_message (status_bit : Nat) (cmd : Nat) (data : List Nat) :
    Except PyErr (List Nat) :=
  match jbd_checksum cmd data with
  | .error e => .error e
  | .ok (hi, lo) => .ok ([0xDD, status_bit, cmd, data.length] ++ data ++ [hi, lo, 0x77])

/-- The spec's Checksum Engine, written from its words (§4.2):
`crc = 0x10000 − (command + length(data) + sum(data))` modulo `0x10000`,
returned as a big-endian two-byte pair. -/
def checksumSpec (cmd : Nat) (data : List Nat) : Nat × Nat :=
  let crc : Int := ((65536 : Int) - ((cmd : Int) + (data.length : Int) + (data.sum : Int))) % 65536
  (crc.toNat / 256, crc.toNat % 256)

namespace JbdBt

/-- Constant `JbdBt.TIMEOUT` from `battery_switch.py`. -/
def TIMEOUT : Nat := 16

/-- One step of `JbdBt._notification_handler`: append `data` to the buffer;
if the buffer now ends with `b'w'` (`0x77`), read the echoed command from
`buffer[1]` (an `IndexError` when the buffer has fewer than two bytes), hand
out the whole buffer as a completed frame and clear the buffer.  Returns the
new buffer and the completed-frame event (command, frame) when one fired. -/
def notification_handler (buffer data : List Nat) :
    Except PyErr (List Nat × Option (Nat × List Nat)) :=
  let b := buffer ++ data
  if b.getLast? = some 0x77 then
    match b[1]? with
    | none => .error .indexError
    | some command => .ok ([], some (command, b))
  else .ok (b, none)

/-- Feed a sequence of notification chunks in order, collecting every
completed-frame event that `notification_handler` fires. -/
def feedAll (buffer : List Nat) : List (List Nat) →
    Except PyErr (List Nat × List (Nat × List Nat))
  | [] => .ok (buffer, [])
  | c :: cs =>
    match notification_handler buffer c with
    | .error e => .error e
    | .ok (b, none) => feedAll b cs
    | .ok (b, some ev) =>
      match feedAll b cs with
      | .error e => .error e
      | .ok (b', evs) => .ok (b', ev :: evs)

end JbdBt

/-- Decoded telemetry record built by `JbdBt.fetch` (the `BmsSample`
constructor call at lines 57–69); `switches` is the two-key dict
`{discharge, charge}`. -/
structure BmsSample where
  voltage : ℚ
  current : ℚ
  charge : ℚ
  capacity : ℚ
  soc : Nat
  num_cycles : Nat
  temperatures : List ℚ
  switch_discharge : Bool
  switch_charge : Bool
  deriving DecidableEq, Repr

/-- The two switch names accepted by `set_switch` (the `assert switch in
{"charge", "discharge"}` at line 81). -/
inductive Switch where
  | charge
  | discharge
  deriving DecidableEq, Repr, Fintype

namespace JbdBt

/-- The pure decoding part of `JbdBt.fetch`, applied to the full response
frame that `_q(cmd=0x03)` resolved with.  `buf = buf[4:]`, then fixed-offset
big-endian fields; `buf[19]` (soc) is a direct index and raises `IndexError`
on a short payload, while every other field is a slice (never raising). -/
def fetch (frame : List Nat) : Except PyErr BmsSample :=
  let buf := frame.drop 4
  let num_temp := fromBytesBE (pySlice buf 22 23)
  let mos_byte := fromBytesBE (pySlice buf 20 21)
  match buf[19]? with
  | none => .error .indexError
  | some soc =>
    .ok {
      voltage := (fromBytesBE (pySlice buf 0 2) : ℚ) / 100
      current := -((fromBytesBESigned (pySlice buf 2 4) : ℚ)) / 100
      charge := (fromBytesBE (pySlice buf 4 6) : ℚ) / 100
      capacity := (fromBytesBE (pySlice buf 6 8) : ℚ) / 100
      soc := soc
      num_cycles := fromBytesBE (pySlice buf 8 10)
      temperatures := (List.range num_temp).map
        (fun i => ((fromBytesBE (pySlice buf (23 + i * 2) (i * 2 + 25)) : ℚ) - 2731) / 10)
      switch_discharge := mos_byte == 2 || mos_byte == 3
      switch_charge := mos_byte == 1 || mos_byte == 3
    }

/-- The pure decoding part of `JbdBt.fetch_voltages`, applied to the full
response frame that `_q(cmd=0x04)` resolved with: `num_cell = int(buf[3]/2)`
(`buf[3]` raises `IndexError` on a frame shorter than 4 bytes; `int(x/2)`
truncates), then `num_cell` big-endian 2-byte slices from offset 4. -/
def fetch_voltages (frame : List Nat) : Except PyErr (List Nat) :=
  match frame[3]? with
  | none => .error .indexError
  | some lb =>
    .ok ((List.range (lb / 2)).map (fun i => fromBytesBE (pySlice frame (4 + i * 2) (i * 2 + 6))))

/-- The control-byte computation inside `set_switch` (lines 95–104):
overwrite the one requested switch in the cached pair, sum the two booleans,
and pick `tc`. -/
def controlByte (cur_charge cur_discharge : Bool) (sw : Switch) (state : Bool) : Nat :=
  let new_charge := if sw = Switch.charge then state else cur_charge
  let new_discharge := if sw = Switch.discharge then state else cur_discharge
  let switches_sum := (if new_charge then 1 else 0) + (if new_discharge then 1 else 0)
  if switches_sum = 2 then 0x00
  else if switches_sum = 0 then 0x03
  else if (sw = Switch.charge ∧ state = false) ∨ (sw = Switch.discharge ∧ state = true) then 0x01
  else 0x02

/-- The switch cache as held in `self._switches`: `none` models Python `None`
(never populated); once populated it is the `(charge, discharge)` pair. -/
abbrev SwitchCache := Option (Bool × Bool)

/-- The cache side effect of a `fetch` call (line 71 runs only after the
sample was built; an exception propagates without touching the cache). -/
def fetchStep (cache : SwitchCache) (frame : List Nat) :
    SwitchCache × Except PyErr BmsSample :=
  match fetch frame with
  | .ok s => (some (s.switch_charge, s.switch_discharge), .ok s)
  | .error e => (cache, .error e)

/-- State effect of `set_switch(switch, state)` after the assert passed:
when the cache is unpopulated, the inner `await self.fetch()` populates it
with the device state `fetched`; `set_switch` itself never assigns
`self._switches`.  Returns the cache afterwards and the write-frame built by
`jbd_message(0x5A, 0xE1, bytes([0x00, tc]))`. -/
def set_switch (cache : SwitchCache) (fetched : Bool × Bool) (sw : Switch) (state : Bool) :
    SwitchCache × Except PyErr (List Nat) :=
  let cur := cache.getD fetched
  let tc := controlByte cur.1 cur.2 sw state
  (some cur, jbd_message 0x5A 0xE1 [0x00, tc])

/-- Connection-level state shared by the notification handler and the
request path: the chunk buffer `self._buffer` and the commands holding a
registered waiter in `self._fetch_futures`. -/
structure ConnState where
  buffer : List Nat
  waiters : List Nat
  deriving DecidableEq, Repr

/-- Modelled from the spec: the waiter machinery `_fetch_futures`
(`acquire`/`wait_for`/`set_result`) lives in the external `bt` module, not in
this repository; §4.4 specifies that `acquire` registers a single waiter for
the command and that `wait_for(cmd, TIMEOUT)` fails with `TimeoutError` and
removes the waiter when no matching frame arrives.  `_q` running to a timeout
therefore acquires the slot, then releases it and raises; nothing on this
path touches `self._buffer` (only `_notification_handler` clears it). -/
def request_no_response (s : ConnState) (cmd : Nat) : ConnState × PyErr :=
  let acquired : ConnState := { s with waiters := cmd :: s.waiters }
  ({ acquired with waiters := acquired.waiters.erase cmd }, PyErr.timeoutError)

end JbdBt

/-- Big-endian signed 16-bit read as the claims word it: the two's-complement
value of the two bytes `hi, lo`. -/
def sbe16 (hi lo : Nat) : Int :=
  if 32768 ≤ 256 * hi + lo then (256 * hi + lo : Int) - 65536 else (256 * hi + lo : Int)

/-- The MOS-state table as the claims word it: `1` → charge on only, `2` →
discharge on only, `3` → both on, any other value → both off.  The pair is
`(charge, discharge)`. -/
def mosSwitches (m : Nat) : Bool × Bool :=
  if m = 1 then (true, false)
  else if m = 2 then (false, true)
  else if m = 3 then (true, true)
  else (false, false)

/-- The Telemetry Decoder output as claim C4 words it: payload = frame after
the 4-byte header; fixed big-endian fields at fixed payload offsets,
`temperature_count` temperatures from offset 23, switches from the MOS
table. -/
def fetchSpec (frame : List Nat) : BmsSample :=
  let p := frame.drop 4
  { voltage := ((256 * p.getD 0 0 + p.getD 1 0 : Nat) : ℚ) / 100
    current := -((sbe16 (p.getD 2 0) (p.getD 3 0) : ℚ)) / 100
    charge := ((256 * p.getD 4 0 + p.getD 5 0 : Nat) : ℚ) / 100
    capacity := ((256 * p.getD 6 0 + p.getD 7 0 : Nat) : ℚ) / 100
    soc := p.getD 19 0
    num_cycles := 256 * p.getD 8 0 + p.getD 9 0
    temperatures := (List.range (p.getD 22 0)).map
      (fun i => (((256 * p.getD (23 + 2 * i) 0 + p.getD (24 + 2 * i) 0 : Nat) : ℚ) - 2731) / 10)
    switch_discharge := (mosSwitches (p.getD 20 0)).2
    switch_charge := (mosSwitches (p.getD 20 0)).1 }

/-- The Cell Voltage Decoder output as claim C7 words it: `n` consecutive
2-byte big-endian values starting at frame offset 4, in index order. -/
def voltagesSpec (frame : List Nat) (n : Nat) : List Nat :=
  (List.range n).map (fun i => 256 * frame.getD (4 + 2 * i) 0 + frame.getD (5 + 2 * i) 0)

/-! ## Helper lemmas -/

lemma fromBytesBE_pair (a b : Nat) : fromBytesBE [a, b] = 256 * a + b := by
  simp [fromBytesBE, List.foldl]
  ring

lemma fromBytesBE_single (a : Nat) : fromBytesBE [a] = a := by
  simp [fromBytesBE, List.foldl]

lemma fromBytesBESigned_pair (a b : Nat) : fromBytesBESigned [a, b] = sbe16 a b := by
  have hu : fromBytesBE [a, b] = 256 * a + b := fromBytesBE_pair a b
  unfold fromBytesBESigned sbe16
  rw [hu]
  simp only [List.length_cons, List.length_nil]
  by_cases h : 32768 ≤ 256 * a + b
  · rw [if_pos (by push_cast; omega), if_pos h]
    push_cast
    ring
  · rw [if_neg (by push_cast; omega), if_neg h]
    push_cast
    ring

lemma foldl_sub_eq (init : Int) (l : List Int) :
    l.foldl (fun acc x => acc - x) init = init - l.sum := by
  induction l generalizing init with
  | nil => simp
  | cons a t ih => simp [List.foldl_cons, ih, List.sum_cons]; ring

lemma list_sum_le_of_le (l : List Nat) (h : ∀ x ∈ l, x ≤ 255) :
    l.sum ≤ 255 * l.length := by
  induction l with
  | nil => simp
  | cons a t ih =>
    have ha := h a (by simp)
    have ht := ih (fun x hx => h x (by simp [hx]))
    simp only [List.sum_cons, List.length_cons]
    omega

lemma drop_take_one (l : List Nat) (i : Nat) (h : i < l.length) :
    (l.drop i).take 1 = [l.getD i 0] := by
  induction l generalizing i with
  | nil => simp at h
  | cons a t ih =>
    cases i with
    | zero => simp
    | succ n =>
      simp only [List.drop_succ_cons, List.getD_cons_succ]
      exact ih n (by simpa using h)

lemma drop_take_two (l : List Nat) (i : Nat) (h : i + 1 < l.length) :
    (l.drop i).take 2 = [l.getD i 0, l.getD (i + 1) 0] := by
  induction l generalizing i with
  | nil => simp at h
  | cons a t ih =>
    cases i with
    | zero =>
      cases t with
      | nil => simp at h
      | cons b t2 => simp
    | succ n =>
      simp only [List.drop_succ_cons, List.getD_cons_succ]
      exact ih n (by simpa using h)

/-! ## Claim theorems -/

/-- C3: for every prior `{charge, discharge}` state, switch name and desired
boolean, the control byte computed by `set_switch` from the tentative pair
(prior state with the requested switch overwritten) matches the table:
both on → `0x00`, both off → `0x03`, charge off / discharge on → `0x01`,
charge on / discharge off → `0x02`. -/
theorem controlByte_matches_table :
    ∀ (cc cd : Bool) (sw : Switch) (st : Bool),
      JbdBt.controlByte cc cd sw st =
        (let nc := if sw = Switch.charge then st else cc
         let nd := if sw = Switch.discharge then st else cd
         if nc ∧ nd then 0x00
         else if ¬nc ∧ ¬nd then 0x03
         else if ¬nc ∧ nd then 0x01
         else 0x02) := by
  decide

set_option maxRecDepth 4096 in
/-- Evaluation of `_jbd_command` and of the checksum with empty data on the
whole byte range `1..255`, checked case by case. -/
lemma jbd_command_ok_aux :
    ∀ c : Fin 256, 1 ≤ c.val →
      _jbd_command c.val = .ok [0xDD, 0xA5, c.val, 0x00, 0xFF, 256 - c.val, 0x77] ∧
      jbd_checksum c.val [] = .ok (0xFF, 256 - c.val) := by
  decide

/-- C6: for every command code `c` in `[1, 255]`, `_jbd_command c` is the
7-byte frame `[0xDD, 0xA5, c, 0x00, 0xFF, (0xFF − (c − 1)) mod 256, 0x77]`,
and its checksum bytes agree with the Checksum Engine (`jbd_checksum`)
applied to `c` with empty data. -/
theorem encode_read_checksum (c : Nat) (h1 : 1 ≤ c) (h2 : c ≤ 255) :
    _jbd_command c = .ok [0xDD, 0xA5, c, 0x00, 0xFF, (0xFF - (c - 1)) % 256, 0x77] ∧
    jbd_checksum c [] = .ok (0xFF, (0xFF - (c - 1)) % 256) := by
  have h := jbd_command_ok_aux ⟨c, by omega⟩ h1
  have hv : (0xFF - (c - 1)) % 256 = 256 - c := by omega
  rw [hv]
  exact h

/-- Witness for C6 at `c = 3`. -/
theorem encode_read_checksum_witness :
    _jbd_command 3 = .ok [0xDD, 0xA5, 3, 0x00, 0xFF, (0xFF - (3 - 1)) % 256, 0x77] ∧
    jbd_checksum 3 [] = .ok (0xFF, (0xFF - (3 - 1)) % 256) :=
  encode_read_checksum 3 (by decide) (by decide)

/-- C10: `_jbd_command` is only defined on command codes in `[1, 255]`: for
command `0` the computed low checksum byte `0xFF − (0 − 1) = 0x100` is out of
byte range and `bytes(...)` raises `ValueError`, while for every command in
`[1, 255]` it returns a 7-byte frame beginning `0xDD, 0xA5` and ending
`0x77`. -/
theorem jbd_command_domain :
    _jbd_command 0 = .error .valueError ∧
    ∀ c : Nat, 1 ≤ c → c ≤ 255 → ∃ l, _jbd_command c = .ok l ∧
      l.length = 7 ∧ l[0]? = some 0xDD ∧ l[1]? = some 0xA5 ∧ l.getLast? = some 0x77 := by
  refine ⟨by decide, ?_⟩
  intro c h1 h2
  obtain ⟨hc, -⟩ := jbd_command_ok_aux ⟨c, by omega⟩ h1
  exact ⟨_, hc, rfl, rfl, rfl, rfl⟩

/-- Witness for C10 at `c = 5` together with the failing command `0`. -/
theorem jbd_command_domain_witness :
    _jbd_command 0 = .error .valueError ∧
    ∃ l, _jbd_command 5 = .ok l ∧ l.length = 7 ∧ l[0]? = some 0xDD ∧
      l[1]? = some 0xA5 ∧ l.getLast? = some 0x77 :=
  ⟨jbd_command_domain.1, jbd_command_domain.2 5 (by decide) (by decide)⟩

/-- C2 (amended): for every command byte `cmd ≤ 255` and byte sequence
`data` of at most 255 bytes, as long as `cmd` and `data` are not both zero
(i.e. `cmd = 0` with empty `data`), `jbd_checksum` returns exactly the
big-endian two-byte encoding of `(0x10000 − (cmd + len(data) + sum(data)))
mod 0x10000` (the Checksum Engine of the spec).  In the excluded case the
subtraction yields `0x10000` itself, which `int.to_bytes(2)` cannot encode,
and the code raises `OverflowError` instead of reducing modulo `0x10000`. -/
theorem jbd_checksum_eq_spec (cmd : Nat) (data : List Nat)
    (hcmd : cmd ≤ 255) (hlen : data.length ≤ 255) (hbytes : ∀ x ∈ data, x ≤ 255)
    (hnz : ¬(cmd = 0 ∧ data = [])) :
    jbd_checksum cmd data = .ok (checksumSpec cmd data) := by
  have hsum_le : data.sum ≤ 255 * data.length := list_sum_le_of_le data hbytes
  have htot_pos : 0 < cmd + data.length + data.sum := by
    rcases data with - | ⟨a, t⟩
    · simp only [List.length_nil, List.sum_nil]
      simp at hnz
      omega
    · simp only [List.length_cons]
      omega
  have htot_le : cmd + data.length + data.sum ≤ 65535 := by omega
  unfold jbd_checksum
  rw [if_pos ⟨hlen, hcmd⟩, foldl_sub_eq]
  have hmapsum : (data.map (fun x : Nat => (x : Int))).sum = (data.sum : Int) := by
    exact (Nat.cast_list_sum data).symm
  have hcrc : (65536 : Int) -
      (data.map (fun x : Nat => (x : Int)) ++ [(data.length : Int), (cmd : Int)]).sum =
      (65536 : Int) - ((cmd : Int) + (data.length : Int) + (data.sum : Int)) := by
    rw [List.sum_append, hmapsum]
    simp
    ring
  rw [hcrc]
  unfold toBytes2BE checksumSpec
  have hrange : (0 : Int) ≤ 65536 - ((cmd : Int) + (data.length : Int) + (data.sum : Int)) ∧
      (65536 : Int) - ((cmd : Int) + (data.length : Int) + (data.sum : Int)) < 65536 := by
    constructor <;> omega
  rw [if_pos hrange]
  have hmod : ((65536 : Int) - ((cmd : Int) + (data.length : Int) + (data.sum : Int))) % 65536 =
      (65536 : Int) - ((cmd : Int) + (data.length : Int) + (data.sum : Int)) :=
    Int.emod_eq_of_lt hrange.1 hrange.2
  rw [hmod]

/-- Witness for the amended C2 at the claim's own example
`cmd = 0xE1`, `data = [0x00, 0x00]`. -/
theorem jbd_checksum_eq_spec_witness :
    jbd_checksum 0xE1 [0x00, 0x00] = .ok (0xFF, 0x1D) := by
  rw [jbd_checksum_eq_spec 0xE1 [0x00, 0x00] (by decide) (by decide) (by decide) (by decide)]
  decide

/-- C2 counterexample: at `cmd = 0`, `data = []` the defining subtraction
gives `0x10000`, the claimed result `(0x10000 mod 0x10000) = 0x0000` is not
returned — the code raises `OverflowError` instead. -/
theorem jbd_checksum_overflow_at_zero :
    jbd_checksum 0 [] = .error .overflowError ∧
    jbd_checksum 0 [] ≠ .ok (checksumSpec 0 []) ∧
    checksumSpec 0 [] = (0x00, 0x00) := by
  refine ⟨by decide, by decide, by decide⟩

/-- C5 (amended): a request for which no matching frame ever arrives fails
with `TimeoutError` after the configured timeout (`TIMEOUT = 16` time
units) and the waiter slot is released — but the partially accumulated
frame buffer is left unchanged, not cleared: no code on the timeout path
touches `self._buffer` (only `_notification_handler` clears it, and only
when a frame completes). -/
theorem request_timeout_releases_waiter (s : JbdBt.ConnState) (cmd : Nat) :
    JbdBt.request_no_response s cmd = (s, PyErr.timeoutError) ∧ JbdBt.TIMEOUT = 16 := by
  refine ⟨?_, rfl⟩
  simp [JbdBt.request_no_response, List.erase_cons_head]

/-- C5 counterexample: a partial frame `[0xDD]` accumulated before the
timeout is still in the buffer after the timed-out request — the buffer is
not empty afterward, contrary to the claim. -/
theorem request_timeout_buffer_not_cleared :
    JbdBt.notification_handler [] [0xDD] = .ok ([0xDD], none) ∧
    (JbdBt.request_no_response ⟨[0xDD], []⟩ 3).1.buffer = [0xDD] ∧
    ([0xDD] : List Nat) ≠ [] := by
  refine ⟨by decide, by decide, by decide⟩

/-- C9 (amended): the cached switch state is populated lazily — by the
first successful telemetry fetch, or by the fetch that `set_switch` itself
performs when the cache is empty — and is overwritten by every subsequent
successful fetch; but `set_switch` never assigns the cache, so after
`set_switch(s, b)` completes the cache equals the previously cached pair
(or the freshly fetched pair when it was empty), not the prior state with
switch `s` set to `b`. -/
theorem switch_cache_update :
    (∀ (cache : JbdBt.SwitchCache) (frame : List Nat) (s : BmsSample),
        JbdBt.fetch frame = .ok s →
        JbdBt.fetchStep cache frame = (some (s.switch_charge, s.switch_discharge), .ok s)) ∧
    (∀ (cache : JbdBt.SwitchCache) (fetched : Bool × Bool) (sw : Switch) (st : Bool),
        (JbdBt.set_switch cache fetched sw st).1 = some (cache.getD fetched)) := by
  constructor
  · intro cache frame s h
    unfold JbdBt.fetchStep
    rw [h]
  · intro cache fetched sw st
    rfl

/-- Witness for the amended C9: a fetch on an all-zero 24-byte frame
populates the empty cache with (charge := false, discharge := false); a
`set_switch` on a populated cache leaves it unchanged. -/
theorem switch_cache_update_witness :
    JbdBt.fetchStep none (List.replicate 24 0) =
      (some (false, false), .ok ⟨0, 0, 0, 0, 0, 0, [], false, false⟩) ∧
    (JbdBt.set_switch (some (false, false)) (true, true) Switch.charge true).1 =
      some (false, false) := by
  constructor
  · exact switch_cache_update.1 none (List.replicate 24 0) ⟨0, 0, 0, 0, 0, 0, [], false, false⟩
      (by norm_num [JbdBt.fetch, pySlice, fromBytesBE, fromBytesBESigned, List.replicate])
  · exact switch_cache_update.2 (some (false, false)) (true, true) Switch.charge true

/-- C9 counterexample: with prior cached state both-off, after
`set_switch(charge, true)` completes the cache is still both-off, not the
prior state with charge set to true. -/
theorem set_switch_does_not_update_cache :
    (JbdBt.set_switch (some (false, false)) (false, false) Switch.charge true).1 =
      some (false, false) ∧
    some (false, false) ≠ some (true, false) := by
  refine ⟨rfl, by decide⟩

/-- C8 (amended): there is no `MalformedFrame` error in the code.  A frame
whose payload is too short for the one direct byte index raises an untyped
`IndexError` (`buf[19]` in `fetch`, `buf[3]` in `fetch_voltages`); a frame
long enough for that single index always decodes successfully — even when
it is shorter than the fixed offsets the decoders read (slices of a short
payload silently shrink and `int.from_bytes` of a short slice returns a
truncated value). -/
theorem short_frame_behaviour :
    (∀ frame : List Nat, (frame.drop 4).length ≤ 19 → JbdBt.fetch frame = .error .indexError) ∧
    (∀ frame : List Nat, 19 < (frame.drop 4).length → ∃ s, JbdBt.fetch frame = .ok s) ∧
    (∀ frame : List Nat, frame.length ≤ 3 → JbdBt.fetch_voltages frame = .error .indexError) ∧
    (∀ frame : List Nat, 3 < frame.length → ∃ v, JbdBt.fetch_voltages frame = .ok v) := by
  refine ⟨?_, ?_, ?_, ?_⟩
  · intro frame h
    have hn : (frame.drop 4)[19]? = none := List.getElem?_eq_none h
    simp [JbdBt.fetch, hn]
  · intro frame h
    have hs : (frame.drop 4)[19]? = some (frame.drop 4)[19] := List.getElem?_eq_getElem h
    simp only [JbdBt.fetch, hs]
    exact ⟨_, rfl⟩
  · intro frame h
    have hn : frame[3]? = none := List.getElem?_eq_none h
    simp [JbdBt.fetch_voltages, hn]
  · intro frame h
    have hs : frame[3]? = some frame[3] := List.getElem?_eq_getElem h
    simp only [JbdBt.fetch_voltages, hs]
    exact ⟨_, rfl⟩

/-- Witness for the amended C8 at concrete frames of each kind. -/
theorem short_frame_behaviour_witness :
    JbdBt.fetch [] = .error .indexError ∧
    (∃ s, JbdBt.fetch (List.replicate 24 0) = .ok s) ∧
    JbdBt.fetch_voltages [] = .error .indexError ∧
    (∃ v, JbdBt.fetch_voltages [0xDD, 0x04, 0x00, 0x08] = .ok v) :=
  ⟨short_frame_behaviour.1 [] (by decide),
   short_frame_behaviour.2.1 (List.replicate 24 0) (by decide),
   short_frame_behaviour.2.2.1 [] (by decide),
   short_frame_behaviour.2.2.2 [0xDD, 0x04, 0x00, 0x08] (by decide)⟩

/-- C8 counterexample: a response frame with a 20-byte payload — shorter
than the fixed offsets `fetch` reads (MOS byte at 20, counts at 21/22,
temperatures from 23) — does not fail at all: `fetch` returns a decoded
sample.  Likewise `fetch_voltages` on a 4-byte frame whose length byte
announces 8 payload bytes returns values decoded from empty slices.  No
typed `MalformedFrame` error exists or is raised. -/
theorem short_frame_no_malformed_error :
    JbdBt.fetch (List.replicate 24 0) = .ok ⟨0, 0, 0, 0, 0, 0, [], false, false⟩ ∧
    JbdBt.fetch_voltages [0xDD, 0x04, 0x00, 0x08] = .ok [0, 0, 0, 0] := by
  constructor
  · norm_num [JbdBt.fetch, pySlice, fromBytesBE, fromBytesBESigned, List.replicate]
  · norm_num [JbdBt.fetch_voltages, pySlice, fromBytesBE, List.range_succ]

/-- C7: for every response frame for command `0x04` whose length byte (frame
offset 3) is `2 * n` and which is long enough to hold `n` consecutive 2-byte
big-endian values from frame offset 4, `fetch_voltages` returns exactly
those `n` values in index order. -/
theorem fetch_voltages_decodes (frame : List Nat) (n : Nat)
    (hlb : frame[3]? = some (2 * n)) (hlen : 4 + 2 * n ≤ frame.length) :
    JbdBt.fetch_voltages frame = .ok (voltagesSpec frame n) := by
  simp only [JbdBt.fetch_voltages, hlb]
  have h2 : 2 * n / 2 = n := by omega
  rw [h2]
  unfold voltagesSpec
  refine congrArg Except.ok (List.map_congr_left ?_)
  intro i hi
  have hin : i < n := List.mem_range.mp hi
  have hslice : pySlice frame (4 + i * 2) (i * 2 + 6) =
      [frame.getD (4 + i * 2) 0, frame.getD (4 + i * 2 + 1) 0] := by
    unfold pySlice
    have hb : i * 2 + 6 - (4 + i * 2) = 2 := by omega
    rw [hb]
    exact drop_take_two frame (4 + i * 2) (by omega)
  rw [hslice, fromBytesBE_pair]
  have e1 : 4 + 2 * i = 4 + i * 2 := by ring
  have e2 : 5 + 2 * i = 4 + i * 2 + 1 := by ring
  rw [e1, e2]

/-- Witness for C7: a response reporting 4 cells each with raw value 3300
(`0x0CE4`) yields `[3300, 3300, 3300, 3300]`. -/
theorem fetch_voltages_decodes_witness :
    JbdBt.fetch_voltages [0xDD, 0x04, 0x00, 0x08, 0x0C, 0xE4, 0x0C, 0xE4, 0x0C, 0xE4,
      0x0C, 0xE4, 0xFF, 0x00, 0x77] = .ok [3300, 3300, 3300, 3300] := by
  rw [fetch_voltages_decodes _ 4 (by decide) (by decide)]
  decide

lemma pySlice_two (l : List Nat) (a b : Nat) (hb : b = a + 2) (h : a + 1 < l.length) :
    pySlice l a b = [l.getD a 0, l.getD (a + 1) 0] := by
  subst hb
  unfold pySlice
  have h2 : a + 2 - a = 2 := by omega
  rw [h2]
  exact drop_take_two l a h

lemma pySlice_one (l : List Nat) (a b : Nat) (hb : b = a + 1) (h : a < l.length) :
    pySlice l a b = [l.getD a 0] := by
  subst hb
  unfold pySlice
  have h1 : a + 1 - a = 1 := by omega
  rw [h1]
  exact drop_take_one l a h

lemma mos_charge_eq (m : Nat) : (m == 1 || m == 3) = (mosSwitches m).1 := by
  unfold mosSwitches
  split_ifs with h1 h2 h3
  · subst h1; rfl
  · subst h2; rfl
  · subst h3; rfl
  · simp only [Bool.or_eq_false_iff, beq_eq_false_iff_ne]
    exact ⟨h1, h3⟩

lemma mos_discharge_eq (m : Nat) : (m == 2 || m == 3) = (mosSwitches m).2 := by
  unfold mosSwitches
  split_ifs with h1 h2 h3
  · subst h1; rfl
  · subst h2; rfl
  · subst h3; rfl
  · simp only [Bool.or_eq_false_iff, beq_eq_false_iff_ne]
    exact ⟨h2, h3⟩

/-- C4: for every response frame for command `0x03` whose payload (the frame
after the 4-byte header) is long enough for the fixed offsets and the
announced temperature count, `fetch` decodes voltage, current
(sign-inverted), charge, capacity, cycle count, soc, the temperature list
from payload offset 23, and the switches from the MOS-state byte, exactly as
`fetchSpec` (the claim's wording) states. -/
theorem fetch_decodes_fields (frame : List Nat)
    (hlen : 23 + 2 * (frame.drop 4).getD 22 0 ≤ (frame.drop 4).length) :
    JbdBt.fetch frame = .ok (fetchSpec frame) := by
  have h19 : 19 < (frame.drop 4).length := by omega
  have h22 : 22 < (frame.drop 4).length := by omega
  have hnum : fromBytesBE (pySlice (frame.drop 4) 22 23) = (frame.drop 4).getD 22 0 := by
    rw [pySlice_one _ 22 23 rfl h22, fromBytesBE_single]
  have hmos : fromBytesBE (pySlice (frame.drop 4) 20 21) = (frame.drop 4).getD 20 0 := by
    rw [pySlice_one _ 20 21 rfl (by omega), fromBytesBE_single]
  simp only [JbdBt.fetch, List.getElem?_eq_getElem h19]
  unfold fetchSpec
  simp only [Except.ok.injEq, BmsSample.mk.injEq]
  refine ⟨?_, ?_, ?_, ?_, ?_, ?_, ?_, ?_, ?_⟩
  · rw [pySlice_two _ 0 2 rfl (by omega), fromBytesBE_pair]
  · rw [pySlice_two _ 2 4 rfl (by omega), fromBytesBESigned_pair]
  · rw [pySlice_two _ 4 6 rfl (by omega), fromBytesBE_pair]
  · rw [pySlice_two _ 6 8 rfl (by omega), fromBytesBE_pair]
  · simp [List.getD_eq_getElem?_getD, List.getElem?_eq_getElem h19]
  · rw [pySlice_two _ 8 10 rfl (by omega), fromBytesBE_pair]
  · rw [hnum]
    refine List.map_congr_left ?_
    intro i hi
    have hin : i < (frame.drop 4).getD 22 0 := List.mem_range.mp hi
    rw [pySlice_two _ (23 + i * 2) (i * 2 + 25) (by ring) (by omega), fromBytesBE_pair]
    have e2 : 23 + i * 2 + 1 = 24 + 2 * i := by ring
    have e1 : 23 + i * 2 = 23 + 2 * i := by ring
    rw [e2, e1]
  · rw [hmos]
    exact mos_discharge_eq _
  · rw [hmos]
    exact mos_charge_eq _

/-- Witness for C4: a frame whose payload carries voltage raw `0x012C` and
current raw `0x0064` decodes to `voltage = 3.00`, `current = −1.00`. -/
theorem fetch_decodes_fields_witness :
    JbdBt.fetch ([0, 0, 0, 0] ++ [0x01, 0x2C, 0x00, 0x64] ++ List.replicate 19 0) =
      .ok ⟨3, -1, 0, 0, 0, 0, [], false, false⟩ := by
  rw [fetch_decodes_fields _ (by decide)]
  norm_num [fetchSpec, mosSwitches, sbe16, List.replicate]

lemma handler_no_event {buffer c : List Nat} (h : (buffer ++ c).getLast? ≠ some 0x77) :
    JbdBt.notification_handler buffer c = .ok (buffer ++ c, none) := by
  unfold JbdBt.notification_handler
  rw [if_neg h]

lemma handler_event {buffer c : List Nat} (h : (buffer ++ c).getLast? = some 0x77)
    (h1 : 1 < (buffer ++ c).length) :
    JbdBt.notification_handler buffer c =
      .ok ([], some ((buffer ++ c).getD 1 0, buffer ++ c)) := by
  unfold JbdBt.notification_handler
  rw [if_pos h, List.getElem?_eq_getElem h1]
  simp [List.getD_eq_getElem?_getD, List.getElem?_eq_getElem h1]

lemma feedAll_cons_none {buffer c : List Nat} {cs : List (List Nat)}
    (h : JbdBt.notification_handler buffer c = .ok (buffer ++ c, none)) :
    JbdBt.feedAll buffer (c :: cs) = JbdBt.feedAll (buffer ++ c) cs := by
  conv_lhs => unfold JbdBt.feedAll
  rw [h]

lemma feedAll_cons_event {buffer c : List Nat} {ev : Nat × List Nat}
    (h : JbdBt.notification_handler buffer c = .ok ([], some ev)) :
    JbdBt.feedAll buffer [c] = .ok ([], [ev]) := by
  conv_lhs => unfold JbdBt.feedAll
  rw [h]
  rfl

lemma flatten_nil_of_nonempty {cs : List (List Nat)} (h : ∀ c ∈ cs, c ≠ [])
    (hj : cs.flatten = []) : cs = [] := by
  cases cs with
  | nil => rfl
  | cons c t =>
    rw [List.flatten_cons] at hj
    exact absurd (List.append_eq_nil.mp hj).1 (h c (by simp))

/-- The last byte of a proper nonempty prefix of `frame` is an interior byte
of `frame`, hence not the terminator when the terminator occurs only at the
very end. -/
lemma front_part_getLast_ne {p rest frame : List Nat} (hp : p ≠ []) (hrest : rest ≠ [])
    (heq : p ++ rest = frame)
    (hint : ∀ i, i + 1 < frame.length → frame[i]? ≠ some 0x77) :
    p.getLast? ≠ some 0x77 := by
  have hplen : 0 < p.length := List.length_pos.mpr hp
  have hrlen : 0 < rest.length := List.length_pos.mpr hrest
  have hflen : frame.length = p.length + rest.length := by
    rw [← heq, List.length_append]
  have h1 : p.getLast? = p[p.length - 1]? := List.getLast?_eq_getElem? p
  have h2 : frame[p.length - 1]? = p[p.length - 1]? := by
    rw [← heq]
    exact List.getElem?_append_left (by omega)
  rw [h1, ← h2]
  exact hint _ (by omega)

/-- Feeding the chunks of any decomposition of `frame` (terminator only at
the end) on top of an already-accumulated proper prefix yields exactly the
one completed-frame event, with an empty buffer afterward. -/
lemma feedAll_complete (frame : List Nat)
    (hlast : frame.getLast? = some 0x77)
    (hint : ∀ i, i + 1 < frame.length → frame[i]? ≠ some 0x77)
    (hlen2 : 1 < frame.length) :
    ∀ (cs : List (List Nat)) (p : List Nat),
      (∀ c ∈ cs, c ≠ []) → p ++ cs.flatten = frame → cs.flatten ≠ [] →
      JbdBt.feedAll p cs = .ok ([], [(frame.getD 1 0, frame)]) := by
  intro cs
  induction cs with
  | nil =>
    intro p hne hjoin hnn
    simp at hnn
  | cons c t ih =>
    intro p hne hjoin hnn
    have hc : c ≠ [] := hne c (by simp)
    rw [List.flatten_cons] at hjoin
    by_cases ht : t.flatten = []
    · have htnil : t = [] := flatten_nil_of_nonempty (fun x hx => hne x (by simp [hx])) ht
      subst htnil
      have hpc : p ++ c = frame := by simpa using hjoin
      have hev := @handler_event p c (by rw [hpc]; exact hlast)
        (by rw [hpc]; exact hlen2)
      rw [feedAll_cons_event hev, hpc]
    · have hpcne : p ++ c ≠ [] := fun hh => hc (List.append_eq_nil.mp hh).2
      have happ : (p ++ c) ++ t.flatten = frame := by
        rw [List.append_assoc]
        exact hjoin
      have hnolast : (p ++ c).getLast? ≠ some 0x77 :=
        front_part_getLast_ne hpcne ht happ hint
      rw [feedAll_cons_none (handler_no_event hnolast)]
      exact ih (p ++ c) (fun x hx => hne x (by simp [hx])) happ ht

/-- C1 (amended): for every well-formed frame — starting `0xDD`, ending with
the terminator `0x77`, and containing the terminator only as its final byte —
and for every way of splitting that frame into non-empty chunks (including
one byte at a time), feeding the chunks in order to the notification handler
yields exactly one complete-frame event, whose content is the whole frame,
and the internal buffer is empty afterward. -/
theorem frame_assembler_single_event (frame : List Nat) (chunks : List (List Nat))
    (hchunks : ∀ c ∈ chunks, c ≠ []) (hjoin : chunks.flatten = frame)
    (hhead : frame[0]? = some 0xDD) (hlast : frame.getLast? = some 0x77)
    (hint : ∀ i, i + 1 < frame.length → frame[i]? ≠ some 0x77) :
    JbdBt.feedAll [] chunks = .ok ([], [(frame.getD 1 0, frame)]) := by
  have hne : frame ≠ [] := by
    intro h
    subst h
    simp at hhead
  have hlen2 : 1 < frame.length := by
    by_contra hcon
    have hflen : frame.length = 1 := by
      have := List.length_pos.mpr hne
      omega
    have hsame : frame.getLast? = frame[0]? := by
      rw [List.getLast?_eq_getElem?, hflen]
    rw [hlast, hhead] at hsame
    simp at hsame
  exact feedAll_complete frame hlast hint hlen2 chunks [] hchunks (by simpa using hjoin)
    (by rw [hjoin]; exact hne)

/-- Witness for the amended C1: the frame `[0xDD, 0x03, 0x77]` fed one byte
at a time produces the single event carrying the whole frame, and leaves the
buffer empty. -/
theorem frame_assembler_single_event_witness :
    JbdBt.feedAll [] [[0xDD], [0x03], [0x77]] = .ok ([], [(0x03, [0xDD, 0x03, 0x77])]) := by
  have h := frame_assembler_single_event [0xDD, 0x03, 0x77] [[0xDD], [0x03], [0x77]]
    (by decide) (by decide) (by decide) (by decide)
    (by
      intro i hi
      simp only [List.length_cons, List.length_nil] at hi
      have hi2 : i < 2 := by omega
      interval_cases i <;> decide)
  exact h

/-- C1 counterexample: the frame `[0xDD, 0x77, 0xAA, 0x77]` is well-formed in
the claim's sense (starts `0xDD`, last byte `0x77`), but split after its
interior `0x77` the handler fires twice, and neither event carries the whole
frame. -/
theorem frame_assembler_double_event :
    ([[0xDD, 0x77], [0xAA, 0x77]] : List (List Nat)).flatten = [0xDD, 0x77, 0xAA, 0x77] ∧
    ([0xDD, 0x77, 0xAA, 0x77] : List Nat)[0]? = some 0xDD ∧
    ([0xDD, 0x77, 0xAA, 0x77] : List Nat).getLast? = some 0x77 ∧
    JbdBt.feedAll [] [[0xDD, 0x77], [0xAA, 0x77]] =
      .ok ([], [(0x77, [0xDD, 0x77]), (0x77, [0xAA, 0x77])]) := by
  refine ⟨by decide, by decide, by decide, by decide⟩
